import Mathlib

/-!
# utils.c : tiling geometry, transfer wrappers and debugging helpers

A shallow embedding of `src/utils.c` and the properties of its functions.

Conventions of the embedding
* C `int` is a 32-bit two's-complement integer, `unsigned int` a 32-bit
  modular integer.  Values are `Int`/`Nat`; every wrap is written out.
* `Option` results: `none` stands for undefined behaviour in C (signed
  overflow, a float-to-int conversion out of range, a read outside a
  buffer).  It is not an error report: no function of the file reports errors.
-/

namespace Utils

/-! ## Machine integers -/

/-- Smallest value of a C `int`. -/
def INT_MIN : Int := -2147483648

/-- Largest value of a C `int`. -/
def INT_MAX : Int := 2147483647

/-- Number of values of a 32-bit word. -/
def UINT_MOD : Nat := 4294967296

/-- Range of a C `int`. -/
def inInt (n : Int) : Prop := INT_MIN ≤ n ∧ n ≤ INT_MAX

instance (n : Int) : Decidable (inInt n) := by
  unfold inInt; infer_instance

/-- Conversion `int → unsigned int`: reduction modulo 2^32. -/
def intToUnsigned (n : Int) : Nat := (n % (UINT_MOD : Int)).toNat

/-- Conversion `unsigned int → int`: the two's-complement reading of the word. -/
def unsignedToInt (u : Nat) : Int :=
  if u % UINT_MOD < 2147483648 then ((u % UINT_MOD : Nat) : Int)
  else ((u % UINT_MOD : Nat) : Int) - (UINT_MOD : Int)

/-- Multiplication of `unsigned int`. -/
def umul (a b : Nat) : Nat := (a * b) % UINT_MOD

/-- Addition of `unsigned int`. -/
def uadd (a b : Nat) : Nat := (a + b) % UINT_MOD

/-! ## Tiling -/

/-- CUDA `dim3`: three `unsigned int` components. -/
structure dim3 where
  x : Nat
  y : Nat
  z : Nat
  deriving DecidableEq, Repr

/-- Every component of a `dim3` is a 32-bit word. -/
def dim3.wf (d : dim3) : Prop := d.x < UINT_MOD ∧ d.y < UINT_MOD ∧ d.z < UINT_MOD

instance (d : dim3) : Decidable d.wf := by
  unfold dim3.wf; infer_instance

/-- The struct `GlobalDim` of the source: two `int` fields. -/
structure GlobalDim where
  x : Int
  y : Int
  deriving DecidableEq, Repr

/-- The function `getGlobalDim`: the products and sums are `unsigned int` arithmetic, the
results are stored in the `int` fields of `GlobalDim`. -/
def getGlobalDim (blockDim blockIdx threadIdx : dim3) : GlobalDim :=
  { x := unsignedToInt (uadd (umul blockDim.x blockIdx.x) threadIdx.x)
    y := unsignedToInt (uadd (umul blockDim.y blockIdx.y) threadIdx.y) }

/-! ## Debugging: `_sleep` -/

/-- The call `_sleep(n)`: the argument handed to `usleep`.  The product `n*1000000` is
an `int` multiplication (undefined on overflow); its value is converted to
`useconds_t`, an `unsigned int`. -/
def _sleep (n : Int) : Option Nat :=
  if inInt (n * 1000000) then some (intToUnsigned (n * 1000000)) else none

/-! ## Single-precision arithmetic

A finite `float` is a sign and a dyadic magnitude `m * 2^e`.  Every operand in
this file is a converted `int`, so magnitudes of nonzero values lie between
`2^-31` and `2^31`, well inside the normal range of binary32: results are
rounded to a 24-bit significand, to nearest, ties to even, and the limits of
the exponent range are never reached. -/

/-- A value of the C type `float`. -/
inductive float where
  | finite (neg : Bool) (m : Nat) (e : Int)
  | inf (neg : Bool)
  | nan
  deriving DecidableEq, Repr

/-- Nearest integer to `num / den`, ties to the even one. -/
def roundNearestEven (num den : Nat) : Nat :=
  if 2 * (num % den) < den then num / den
  else if den < 2 * (num % den) then num / den + 1
  else if (num / den) % 2 = 0 then num / den
  else num / den + 1

/-- Numerator of `num / den / 2^e` over the denominator `scaleDen den e`. -/
def scaleNum (num : Nat) (e : Int) : Nat := num * 2 ^ (-e).toNat

/-- Denominator of `num / den / 2^e` under the numerator `scaleNum num e`. -/
def scaleDen (den : Nat) (e : Int) : Nat := den * 2 ^ e.toNat

/-- Halving loop behind `ilog2`; `fuel` bounds the number of halvings. -/
def ilog2Loop : Nat → Nat → Nat
  | 0, _ => 0
  | fuel + 1, n => if 2 ≤ n then ilog2Loop fuel (n / 2) + 1 else 0

/-- Position of the leading bit of `n` (0 for `n ≤ 1`). -/
def ilog2 (n : Nat) : Nat := ilog2Loop n n

/-- Exponent of the last place of a 24-bit significand for the positive
rational `num / den`: the `e` with `2^23 ≤ num / den / 2^e < 2^24`. -/
def ulpExp (num den : Nat) : Int :=
  let e0 : Int := (ilog2 num : Int) - (ilog2 den : Int) - 24
  if scaleNum num e0 < 16777216 * scaleDen den e0 then e0 else e0 + 1

/-- The `float` nearest to `± num / den`, for `num` and `den` positive. -/
def roundFloat (neg : Bool) (num den : Nat) : float :=
  .finite neg
    (roundNearestEven (scaleNum num (ulpExp num den)) (scaleDen den (ulpExp num den)))
    (ulpExp num den)

/-- Conversion `(float)n` of an `int`. -/
def intToFloat (n : Int) : float :=
  if n = 0 then .finite false 0 0 else roundFloat (decide (n < 0)) n.natAbs 1

/-- Division of two `float`s. -/
def fdiv : float → float → float
  | .nan, _ => .nan
  | _, .nan => .nan
  | .inf _, .inf _ => .nan
  | .inf s, .finite t _ _ => .inf (xor s t)
  | .finite s _ _, .inf t => .finite (xor s t) 0 0
  | .finite s ma ea, .finite t mb eb =>
    if mb = 0 then (if ma = 0 then .nan else .inf (xor s t))
    else if ma = 0 then .finite (xor s t) 0 0
    else roundFloat (xor s t) (scaleNum (scaleDen ma ea) eb) (scaleNum (scaleDen mb eb) ea)

/-- The function `ceil` of `math.h` on a `float`: the least integral value not
below the argument. -/
def ceil : float → float
  | .finite false m e => .finite false ((scaleDen m e + scaleNum 1 e - 1) / scaleNum 1 e) 0
  | .finite true m e => .finite true (scaleDen m e / scaleNum 1 e) 0
  | x => x

/-- Conversion `(int)x` of a `float`: truncation toward zero, undefined when
the truncated value is not an `int` (and for infinities and NaN). -/
def floatToInt : float → Option Int
  | .finite s m e =>
    let t : Int := ((scaleDen m e / scaleNum 1 e : Nat) : Int)
    let v : Int := if s then -t else t
    if inInt v then some v else none
  | _ => none

/-- The function `getGridBasedOnBlockSize`: each component is
`(int)ceil((float)dim / block_size)`, with `block_size` converted to `float`
for the division; `dim3 gridXY(gridX, gridY)` converts both to `unsigned int`
and sets `z` to its default 1. -/
def getGridBasedOnBlockSize (width height block_size : Int) : Option dim3 :=
  match floatToInt (ceil (fdiv (intToFloat width) (intToFloat block_size))),
        floatToInt (ceil (fdiv (intToFloat height) (intToFloat block_size))) with
  | some gridX, some gridY => some { x := intToUnsigned gridX, y := intToUnsigned gridY, z := 1 }
  | _, _ => none


/-- Ceiling division as the specification writes it,
`(dim + group_size - 1) / group_size` in integer arithmetic. -/
def ceilDivSpec (dim group_size : Int) : Int := (dim + group_size - 1) / group_size

/-- The grid of the specification: integer ceiling division on both axes. -/
def getGridBasedOnBlockSizeSpec (width height block_size : Int) : dim3 :=
  { x := (ceilDivSpec width block_size).toNat, y := (ceilDivSpec height block_size).toNat, z := 1 }

/-! ## Debugging: `drawMatrix` -/

/-- Decimal digits of `n`, padded with zeros on the left to six places. -/
def sixDigits (n : Nat) : String :=
  String.mk (List.replicate (6 - (Nat.toDigits 10 n).length) '0' ++ Nat.toDigits 10 n)

/-- Output of the `printf` conversion `%f`: the value in decimal with six
digits after the point, the exact value being rounded to nearest, ties to
even. -/
def printf_f : float → String
  | .nan => "nan"
  | .inf s => (if s then "-" else "") ++ "inf"
  | .finite s m e =>
    let r := roundNearestEven (scaleDen m e * 1000000) (scaleNum 1 e)
    (if s then "-" else "") ++ String.mk (Nat.toDigits 10 (r / 1000000)) ++ "."
      ++ sixDigits (r % 1000000)

/-- Value of the `int` expression `i * width + j`; `none` when the product or
the sum overflows. -/
def index (i width j : Int) : Option Int :=
  if inInt (i * width) ∧ inInt (i * width + j) then some (i * width + j) else none

/-- The read `m[idx]` from a buffer of `float`s; `none` outside the buffer. -/
def readFloat (m : List float) (idx : Int) : Option float :=
  if 0 ≤ idx then m.get? idx.toNat else none

/-- The inner loop of `drawMatrix` from column `j` on, with `k` iterations
left: the text it prints. -/
def drawRow (m : List float) (width i : Int) : Nat → Int → Option String
  | 0, _ => some ""
  | k + 1, j =>
    match (index i width j).bind (readFloat m) with
    | none => none
    | some x => (drawRow m width i k (j + 1)).map (fun rest => printf_f x ++ " " ++ rest)

/-- The outer loop of `drawMatrix` from row `i` on, with `k` iterations left:
the text it prints. -/
def drawRows (m : List float) (width : Int) : Nat → Int → Option String
  | 0, _ => some ""
  | k + 1, i =>
    match drawRow m width i width.toNat 0 with
    | none => none
    | some row => (drawRows m width k (i + 1)).map (fun rest => row ++ "\n" ++ rest)

/-- The function `drawMatrix`: the text written to standard output.  A loop
`for (int t = 0; t < n; t++)` runs `n` times for `n ≥ 0` and not at all
otherwise. -/
def drawMatrix (m : List float) (width height : Int) : Option String :=
  drawRows m width height.toNat 0

/-- The layout of the specification: the elements of a row separated by single
spaces, each row ended by a newline. -/
def drawMatrixSpec (m : List float) (width height : Nat) : String :=
  String.join ((List.range height).map fun i =>
    " ".intercalate (((m.drop (i * width)).take width).map printf_f) ++ "\n")

/-! ## Global memory -/

/-- A cell of memory holding a `float`; `none` is a cell never written. -/
abbrev Cell := Option float

/-- A value of type `float*`: `NULL`, the cell at offset `off` (counted in
`float`s) of the host or device block `id`, or the value of a pointer variable
that was never set. -/
inductive Ptr where
  | null
  | host (id off : Nat)
  | device (id off : Nat)
  | indeterminate
  deriving DecidableEq, Repr

/-- Status codes of the CUDA runtime that the calls of this file can yield. -/
inductive cudaError where
  | cudaSuccess
  | cudaErrorMemoryAllocation
  | cudaErrorInvalidValue
  deriving DecidableEq, Repr

/-- Direction of a `cudaMemcpy`. -/
inductive cudaMemcpyKind where
  | cudaMemcpyHostToDevice
  | cudaMemcpyDeviceToHost
  deriving DecidableEq, Repr

/-- A call into the C library or the CUDA runtime, with what it returned. -/
inductive Call where
  | cudaMalloc (size : Nat) (status : cudaError)
  | malloc (size : Nat) (result : Ptr)
  | cudaMemcpy (dst src : Ptr) (count : Nat) (kind : cudaMemcpyKind) (status : cudaError)
  deriving DecidableEq, Repr

/-- Host and device memory as seen by the transfer helpers: the allocated
blocks of each side (a pointer names a block by its position and a cell by
its offset in the block), the bytes each allocator can still hand out, and
the calls made so far with their results. -/
structure Machine where
  host : List (List Cell)
  device : List (List Cell)
  hostFree : Nat
  deviceFree : Nat
  calls : List Call
  deriving DecidableEq, Repr

/-- The `size_t` value of `sizeof(float) * src_size` (64-bit `size_t`). -/
def byteCount (src_size : Int) : Nat :=
  (4 * (src_size % 18446744073709551616).toNat) % 18446744073709551616

/-- The call `cudaMalloc(&p, size)`: on success `p` becomes the start of a
fresh device block of `size / sizeof(float)` cells; on failure `p` keeps its
value. -/
def cudaMalloc (M : Machine) (p : Ptr) (size : Nat) : Ptr × Machine :=
  if size ≤ M.deviceFree then
    (Ptr.device M.device.length 0,
      { M with device := M.device ++ [List.replicate (size / 4) none],
               deviceFree := M.deviceFree - size,
               calls := M.calls ++ [Call.cudaMalloc size cudaError.cudaSuccess] })
  else
    (p, { M with calls := M.calls ++ [Call.cudaMalloc size cudaError.cudaErrorMemoryAllocation] })

/-- The call `malloc(size)`: the start of a fresh host block of
`size / sizeof(float)` cells, or `NULL`. -/
def malloc (M : Machine) (size : Nat) : Ptr × Machine :=
  if size ≤ M.hostFree then
    (Ptr.host M.host.length 0,
      { M with host := M.host ++ [List.replicate (size / 4) none],
               hostFree := M.hostFree - size,
               calls := M.calls ++ [Call.malloc size (Ptr.host M.host.length 0)] })
  else
    (Ptr.null, { M with calls := M.calls ++ [Call.malloc size Ptr.null] })

/-- The block `dst` after the `n` cells of `src` from offset `so` on have been
written over its cells from offset `d` on. -/
def copyCells (n : Nat) (src : List Cell) (so : Nat) (dst : List Cell) (d : Nat) : List Cell :=
  dst.take d ++ (src.drop so).take n ++ dst.drop (d + n)

/-- The call `cudaMemcpy(dst, src, count, kind)`.  The copy takes place when
`dst` and `src` point into blocks of the sides named by `kind` with at least
`count` bytes from the pointer to the end of the block; any other call is
refused with `cudaErrorInvalidValue` and moves nothing. -/
def cudaMemcpy (M : Machine) (dst src : Ptr) (count : Nat) (kind : cudaMemcpyKind) : Machine :=
  let refused : Machine :=
    { M with calls := M.calls ++ [Call.cudaMemcpy dst src count kind cudaError.cudaErrorInvalidValue] }
  match kind, dst, src with
  | .cudaMemcpyHostToDevice, .device d doff, .host h hoff =>
    match M.device.get? d, M.host.get? h with
    | some db, some hb =>
      if 4 * doff + count ≤ 4 * db.length ∧ 4 * hoff + count ≤ 4 * hb.length then
        { M with device := M.device.set d (copyCells (count / 4) hb hoff db doff),
                 calls := M.calls ++ [Call.cudaMemcpy dst src count kind cudaError.cudaSuccess] }
      else refused
    | _, _ => refused
  | .cudaMemcpyDeviceToHost, .host h hoff, .device d doff =>
    match M.host.get? h, M.device.get? d with
    | some hb, some db =>
      if 4 * hoff + count ≤ 4 * hb.length ∧ 4 * doff + count ≤ 4 * db.length then
        { M with host := M.host.set h (copyCells (count / 4) db doff hb hoff),
                 calls := M.calls ++ [Call.cudaMemcpy dst src count kind cudaError.cudaSuccess] }
      else refused
    | _, _ => refused
  | _, _, _ => refused

/-- The function `_copyHostDevice`: `src_d` is declared without a value, handed to
`cudaMalloc`, used as the destination of the copy and returned.  Neither
status code is looked at. -/
def _copyHostDevice (M : Machine) (src : Ptr) (src_size : Int) : Ptr × Machine :=
  let (src_d, M1) := cudaMalloc M Ptr.indeterminate (byteCount src_size)
  let M2 := cudaMemcpy M1 src_d src (byteCount src_size) cudaMemcpyKind.cudaMemcpyHostToDevice
  (src_d, M2)

/-- The function `_copyDeviceHost`: the target is `dst`, or the result of `malloc` when
`dst` is `NULL`; the copy is issued and the target returned.  Neither the
result of `malloc` nor the status code is looked at. -/
def _copyDeviceHost (M : Machine) (src : Ptr) (src_size : Int) (dst : Ptr) : Ptr × Machine :=
  let (target, M1) := if dst = Ptr.null then malloc M (byteCount src_size) else (dst, M)
  let M2 := cudaMemcpy M1 target src (byteCount src_size) cudaMemcpyKind.cudaMemcpyDeviceToHost
  (target, M2)

/-- The round trip of the specification: `_copyHostDevice` followed by
`_copyDeviceHost` on the pointer it returned. -/
def roundTrip (M : Machine) (src : Ptr) (src_size : Int) (dst : Ptr) : Ptr × Machine :=
  _copyDeviceHost (_copyHostDevice M src src_size).2 (_copyHostDevice M src src_size).1
    src_size dst

/-- A machine with the given host blocks, no device block, the given free bytes
and no call made yet. -/
def freshMachine (host : List (List Cell)) (hostFree deviceFree : Nat) : Machine :=
  { host := host, device := [], hostFree := hostFree, deviceFree := deviceFree, calls := [] }

/-- The floats 1, 2, ..., `n` as initialised cells. -/
def countingCells (n : Nat) : List Cell :=
  (List.range n).map fun i => some (intToFloat ((i : Int) + 1))

/-! ## Lemmas on rounding -/

theorem ilog2Loop_spec (fuel : Nat) : ∀ n : Nat, n ≤ fuel → 0 < n →
    2 ^ ilog2Loop fuel n ≤ n ∧ n < 2 ^ (ilog2Loop fuel n + 1) := by
  induction fuel with
  | zero => intro n h1 h2; omega
  | succ f ih =>
    intro n h1 h2
    unfold ilog2Loop
    by_cases h : 2 ≤ n
    · rw [if_pos h]
      have h3 := ih (n / 2) (by omega) (by omega)
      have h4 := Nat.div_add_mod n 2
      have h5 := Nat.mod_lt n (show 0 < 2 by omega)
      rw [pow_succ, pow_succ]
      constructor <;> omega
    · rw [if_neg h]
      constructor <;> simp <;> omega

theorem ilog2_spec (n : Nat) (h : 0 < n) : 2 ^ ilog2 n ≤ n ∧ n < 2 ^ (ilog2 n + 1) :=
  ilog2Loop_spec n n (Nat.le_refl n) h

theorem roundNearestEven_le (N D k : Nat) (hD : 0 < D) (h : N ≤ k * D) :
    roundNearestEven N D ≤ k := by
  have h1 := Nat.div_add_mod N D
  have h2 := Nat.mod_lt N hD
  have h3 : N / D ≤ k := by
    apply Nat.div_le_of_le_mul; rw [Nat.mul_comm]; exact h
  unfold roundNearestEven
  rcases Nat.lt_or_ge (N / D) k with h4 | h4
  · split_ifs <;> omega
  · have h5 : N / D = k := by omega
    have h6 : N % D = 0 := by
      rw [h5, Nat.mul_comm] at h1; omega
    rw [h6, h5]; simp [hD]

theorem le_roundNearestEven (N D k : Nat) (hD : 0 < D) (h : k * D ≤ N) :
    k ≤ roundNearestEven N D := by
  have h3 : k ≤ N / D := (Nat.le_div_iff_mul_le hD).2 h
  unfold roundNearestEven
  split_ifs <;> omega

theorem succ_le_roundNearestEven (N D k : Nat) (hD : 0 < D) (h : (2 * k + 1) * D < 2 * N) :
    k + 1 ≤ roundNearestEven N D := by
  have h1 := Nat.div_add_mod N D
  have h2 := Nat.mod_lt N hD
  have h3 : k ≤ N / D := by
    by_contra hc
    have h4 : N / D + 1 ≤ k := by omega
    have h5 : (N / D + 1) * D ≤ k * D := Nat.mul_le_mul_right D h4
    have h6 : (N / D + 1) * D = D * (N / D) + D := by ring
    have h7 : (2 * k + 1) * D = 2 * (k * D) + D := by ring
    omega
  unfold roundNearestEven
  rcases Nat.lt_or_ge k (N / D) with h4 | h4
  · split_ifs <;> omega
  · have h5 : N / D = k := by omega
    have h7 : (2 * k + 1) * D = 2 * (D * k) + D := by ring
    rw [h5] at h1 ⊢
    have h8 : D < 2 * (N % D) := by omega
    rw [if_neg (by omega), if_pos h8]

theorem roundNearestEven_exact (D k : Nat) (hD : 0 < D) : roundNearestEven (k * D) D = k :=
  Nat.le_antisymm (roundNearestEven_le _ _ _ hD (Nat.le_refl _))
    (le_roundNearestEven _ _ _ hD (Nat.le_refl _))

theorem scaleNum_of_nonneg (n : Nat) (e : Int) (h : 0 ≤ e) : scaleNum n e = n := by
  have h1 : (-e).toNat = 0 := by omega
  simp [scaleNum, h1]

theorem scaleDen_of_nonpos (n : Nat) (e : Int) (h : e ≤ 0) : scaleDen n e = n := by
  have h1 : e.toNat = 0 := by omega
  simp [scaleDen, h1]

theorem scaleNum_neg (n k : Nat) : scaleNum n (-(k : Int)) = n * 2 ^ k := by
  simp [scaleNum]

theorem scaleDen_natCast (n k : Nat) : scaleDen n (k : Int) = n * 2 ^ k := by
  simp [scaleDen]

theorem ulpExp_spec (num den : Nat) (hn : 0 < num) (hd : 0 < den) :
    8388608 * scaleDen den (ulpExp num den) ≤ scaleNum num (ulpExp num den) ∧
    scaleNum num (ulpExp num den) < 16777216 * scaleDen den (ulpExp num den) := by
  obtain ⟨hl1, hl2⟩ := ilog2_spec num hn
  obtain ⟨hd1, hd2⟩ := ilog2_spec den hd
  unfold ulpExp
  simp only []
  generalize ilog2 num = l at *
  generalize ilog2 den = d at *
  rw [pow_succ] at hl2 hd2
  rcases Nat.lt_or_ge l (d + 24) with hc | hc
  · -- negative exponent
    obtain ⟨k, hk⟩ : ∃ k : Nat, d + 24 = l + (k + 1) := ⟨d + 24 - l - 1, by omega⟩
    have he0 : (l : Int) - (d : Int) - 24 = -((k + 1 : Nat) : Int) := by omega
    have he1 : -((k + 1 : Nat) : Int) + 1 = -((k : Nat) : Int) := by omega
    have hp : 2 ^ l * (2 ^ k * 2) = 2 ^ d * 16777216 := by
      rw [← pow_succ, ← pow_add, ← hk, pow_add]; norm_num
    have hK : 0 < 2 ^ k := Nat.two_pow_pos k
    rw [he0, he1]
    have h1 : 2 ^ l * (2 ^ k * 2) ≤ num * (2 ^ k * 2) := Nat.mul_le_mul_right _ hl1
    have h2 : num * 2 ^ k < 2 ^ l * 2 * 2 ^ k := Nat.mul_lt_mul_of_pos_right hl2 hK
    have h3 : 2 ^ l * 2 * 2 ^ k = 2 ^ l * (2 ^ k * 2) := by ring
    have h4 : num * (2 ^ k * 2) = 2 * (num * 2 ^ k) := by ring
    split_ifs with hb
    · rw [scaleNum_neg, scaleDen_of_nonpos _ _ (by omega), pow_succ] at hb ⊢
      constructor
      · omega
      · exact hb
    · rw [scaleNum_neg, scaleDen_of_nonpos _ _ (by omega), pow_succ] at hb
      rw [scaleNum_neg, scaleDen_of_nonpos _ _ (by omega)]
      constructor <;> omega
  · -- non-negative exponent
    obtain ⟨j, hj⟩ : ∃ j : Nat, l = d + 24 + j := ⟨l - (d + 24), by omega⟩
    have he0 : (l : Int) - (d : Int) - 24 = ((j : Nat) : Int) := by omega
    have he1 : ((j : Nat) : Int) + 1 = ((j + 1 : Nat) : Int) := by omega
    have hp : 2 ^ l = 2 ^ d * 16777216 * 2 ^ j := by
      rw [hj, pow_add, pow_add]; norm_num
    have hY : 0 < 2 ^ j := Nat.two_pow_pos j
    rw [he0, he1]
    rw [hp] at hl1 hl2
    have h1 : den * 2 ^ j < 2 ^ d * 2 * 2 ^ j := Nat.mul_lt_mul_of_pos_right hd2 hY
    have h2 : 2 ^ d * 2 ^ j ≤ den * 2 ^ j := Nat.mul_le_mul_right _ hd1
    have h3 : 2 ^ d * 16777216 * 2 ^ j = 16777216 * (2 ^ d * 2 ^ j) := by ring
    have h4 : 2 ^ d * 2 * 2 ^ j = 2 * (2 ^ d * 2 ^ j) := by ring
    have h5 : den * (2 ^ j * 2) = 2 * (den * 2 ^ j) := by ring
    split_ifs with hb
    · rw [scaleNum_of_nonneg _ _ (by omega), scaleDen_natCast] at hb ⊢
      constructor
      · omega
      · exact hb
    · rw [scaleNum_of_nonneg _ _ (by omega), scaleDen_natCast] at hb
      rw [scaleNum_of_nonneg _ _ (by omega), scaleDen_natCast, pow_succ]
      constructor <;> omega

theorem ceilDiv_bounds (A B : Nat) (hB : 0 < B) :
    A ≤ (A + B - 1) / B * B ∧ (A + B - 1) / B * B < A + B := by
  have h1 := Nat.div_add_mod (A + B - 1) B
  have h2 := Nat.mod_lt (A + B - 1) hB
  rw [Nat.mul_comm] at h1
  constructor <;> omega

theorem ceil_roundQuotient (A B c : Nat) (hA : 0 < A) (hA2 : A ≤ 16777216) (hB : 0 < B)
    (hc : 0 < c) :
    (scaleDen (roundNearestEven (scaleNum (A * c) (ulpExp (A * c) (B * c)))
        (scaleDen (B * c) (ulpExp (A * c) (B * c)))) (ulpExp (A * c) (B * c))
      + scaleNum 1 (ulpExp (A * c) (B * c)) - 1) / scaleNum 1 (ulpExp (A * c) (B * c))
      = (A + B - 1) / B := by
  obtain ⟨hlo, -⟩ := ulpExp_spec (A * c) (B * c) (Nat.mul_pos hA hc) (Nat.mul_pos hB hc)
  obtain ⟨hn1, hn2⟩ := ceilDiv_bounds A B hB
  generalize ulpExp (A * c) (B * c) = e at *
  generalize (A + B - 1) / B = n at *
  have hBc : 0 < B * c := Nat.mul_pos hB hc
  rcases Int.lt_or_le 0 e with he | he
  · -- the quotient is at least 2^24: only 2^24 / 1
    obtain ⟨j, hj⟩ : ∃ j : Nat, e = ((j + 1 : Nat) : Int) := ⟨(e - 1).toNat, by omega⟩
    subst hj
    rw [scaleNum_of_nonneg _ _ (by omega), scaleDen_natCast, pow_succ] at hlo
    rw [scaleNum_of_nonneg _ _ (by omega), scaleNum_of_nonneg _ _ (by omega), scaleDen_natCast,
      scaleDen_natCast, pow_succ]
    have hY : 0 < 2 ^ j := Nat.two_pow_pos j
    generalize 2 ^ j = Y at *
    have h1 : 8388608 * (B * c * (Y * 2)) = (16777216 * (B * Y)) * c := by ring
    rw [h1] at hlo
    have h2 : 16777216 * (B * Y) ≤ A := Nat.le_of_mul_le_mul_right hlo hc
    have h3 : 0 < B * Y := Nat.mul_pos hB hY
    have h4 : B * Y = 1 := by omega
    have h5 : B = 1 := Nat.eq_one_of_mul_eq_one_right h4
    have h6 : Y = 1 := Nat.eq_one_of_mul_eq_one_left h4
    have h7 : A = 16777216 := by omega
    subst h5 h6 h7
    have h8 : 16777216 * c = 8388608 * (1 * c * (1 * 2)) := by ring
    rw [h8, roundNearestEven_exact _ _ (by omega)]
    omega
  · obtain ⟨k, hk⟩ : ∃ k : Nat, e = -((k : Nat) : Int) := ⟨(-e).toNat, by omega⟩
    subst hk
    rw [scaleNum_neg, scaleDen_of_nonpos _ _ (by omega)] at hlo
    rw [scaleNum_neg, scaleNum_neg, scaleDen_of_nonpos _ _ (by omega),
      scaleDen_of_nonpos _ _ (by omega)]
    have hP : 0 < 2 ^ k := Nat.two_pow_pos k
    generalize 2 ^ k = P at *
    -- the rounded significand lies in ((n-1) P, n P]
    have hup : roundNearestEven (A * c * P) (B * c) ≤ n * P := by
      apply roundNearestEven_le _ _ _ hBc
      have h1 : A * (c * P) ≤ n * B * (c * P) := Nat.mul_le_mul_right _ hn1
      have h2 : A * (c * P) = A * c * P := by ring
      have h3 : n * B * (c * P) = n * P * (B * c) := by ring
      omega
    have hlo2 : 8388608 * B ≤ A * P := by
      have h1 : 8388608 * (B * c) = 8388608 * B * c := by ring
      have h2 : A * c * P = A * P * c := by ring
      rw [h1, h2] at hlo
      exact Nat.le_of_mul_le_mul_right hlo hc
    have hnpos : 0 < n := by
      rcases Nat.eq_zero_or_pos n with h | h
      · subst h; omega
      · exact h
    obtain ⟨n', hn'⟩ : ∃ n' : Nat, n = n' + 1 := ⟨n - 1, by omega⟩
    subst hn'
    have hnB : (n' + 1) * B = n' * B + B := by ring
    rw [hnB] at hn1 hn2
    obtain ⟨r, hr⟩ : ∃ r : Nat, A = n' * B + r := ⟨A - n' * B, by omega⟩
    have hr1 : 0 < r := by omega
    have hAP : A * P ≤ 16777216 * P := Nat.mul_le_mul_right _ hA2
    have hkey : B < 2 * (r * P) := by
      by_contra hcon
      have h1 : 2 * (r * P) ≤ B := by omega
      have h2 : r * P ≤ 1 * P := by omega
      have h3 : r ≤ 1 := Nat.le_of_mul_le_mul_right h2 hP
      have h4 : r = 1 := by omega
      subst h4
      have h5 : A * P = n' * B * P + P := by rw [hr]; ring
      have h6 : B = 2 * P := by omega
      subst h6
      have h7 : 16777216 * P ≤ A * P := by omega
      have h8 : 16777216 ≤ A := Nat.le_of_mul_le_mul_right h7 hP
      have h9 : n' * (2 * P) = 2 * (n' * P) := by ring
      omega
    have hdown : n' * P + 1 ≤ roundNearestEven (A * c * P) (B * c) := by
      apply succ_le_roundNearestEven _ _ _ hBc
      have h1 : (2 * (n' * P) + 1) * B < 2 * (A * P) := by
        have h2 : (2 * (n' * P) + 1) * B = 2 * (n' * B * P) + B := by ring
        have h3 : A * P = n' * B * P + r * P := by rw [hr]; ring
        omega
      have h4 : (2 * (n' * P) + 1) * B * c < 2 * (A * P) * c := Nat.mul_lt_mul_of_pos_right h1 hc
      have h5 : (2 * (n' * P) + 1) * (B * c) = (2 * (n' * P) + 1) * B * c := by ring
      have h6 : 2 * (A * c * P) = 2 * (A * P) * c := by ring
      omega
    generalize roundNearestEven (A * c * P) (B * c) = m at *
    have h1 : (n' + 1) * P = n' * P + P := by ring
    have h2 : (n' + 1 + 1) * P = n' * P + P + P := by ring
    rw [Nat.one_mul]
    apply Nat.div_eq_of_lt_le
    · rw [h1]; omega
    · rw [h2]; omega

theorem roundNearestEven_le_of_lt (N D k : Nat) (hD : 0 < D) (h : 2 * N < (2 * k + 1) * D) :
    roundNearestEven N D ≤ k := by
  have h1 := Nat.div_add_mod N D
  have h2 := Nat.mod_lt N hD
  have h3 : N / D ≤ k := by
    by_contra hc
    have h4 : k + 1 ≤ N / D := by omega
    have h5 : (k + 1) * D ≤ N / D * D := Nat.mul_le_mul_right D h4
    have h6 : (k + 1) * D = k * D + D := by ring
    have h7 : (2 * k + 1) * D = 2 * (k * D) + D := by ring
    have h8 : N / D * D = D * (N / D) := Nat.mul_comm _ _
    omega
  unfold roundNearestEven
  rcases Nat.lt_or_ge (N / D) k with h4 | h4
  · split_ifs <;> omega
  · have h5 : N / D = k := by omega
    have h7 : (2 * k + 1) * D = 2 * (D * k) + D := by ring
    rw [h5] at h1 ⊢
    have h8 : 2 * (N % D) < D := by omega
    rw [if_pos h8]

theorem floor_roundQuotient (A B c : Nat) (hA : 0 < A) (hA2 : A ≤ 16777216) (hB : 0 < B)
    (hc : 0 < c) :
    scaleDen (roundNearestEven (scaleNum (A * c) (ulpExp (A * c) (B * c)))
        (scaleDen (B * c) (ulpExp (A * c) (B * c)))) (ulpExp (A * c) (B * c))
      / scaleNum 1 (ulpExp (A * c) (B * c)) = A / B := by
  obtain ⟨hlo, -⟩ := ulpExp_spec (A * c) (B * c) (Nat.mul_pos hA hc) (Nat.mul_pos hB hc)
  have hn1 : A / B * B ≤ A := Nat.div_mul_le_self A B
  have hn2 : A < (A / B + 1) * B := by
    have h1 := Nat.div_add_mod A B
    have h2 := Nat.mod_lt A hB
    have h3 : (A / B + 1) * B = B * (A / B) + B := by ring
    omega
  generalize ulpExp (A * c) (B * c) = e at *
  generalize A / B = n at *
  have hBc : 0 < B * c := Nat.mul_pos hB hc
  rcases Int.lt_or_le 0 e with he | he
  · obtain ⟨j, hj⟩ : ∃ j : Nat, e = ((j + 1 : Nat) : Int) := ⟨(e - 1).toNat, by omega⟩
    subst hj
    rw [scaleNum_of_nonneg _ _ (by omega), scaleDen_natCast, pow_succ] at hlo
    rw [scaleNum_of_nonneg _ _ (by omega), scaleNum_of_nonneg _ _ (by omega), scaleDen_natCast,
      scaleDen_natCast, pow_succ]
    have hY : 0 < 2 ^ j := Nat.two_pow_pos j
    generalize 2 ^ j = Y at *
    have h1 : 8388608 * (B * c * (Y * 2)) = (16777216 * (B * Y)) * c := by ring
    rw [h1] at hlo
    have h2 : 16777216 * (B * Y) ≤ A := Nat.le_of_mul_le_mul_right hlo hc
    have h3 : 0 < B * Y := Nat.mul_pos hB hY
    have h4 : B * Y = 1 := by omega
    have h5 : B = 1 := Nat.eq_one_of_mul_eq_one_right h4
    have h6 : Y = 1 := Nat.eq_one_of_mul_eq_one_left h4
    have h7 : A = 16777216 := by omega
    subst h5 h6 h7
    have h8 : 16777216 * c = 8388608 * (1 * c * (1 * 2)) := by ring
    rw [h8, roundNearestEven_exact _ _ (by omega)]
    omega
  · obtain ⟨k, hk⟩ : ∃ k : Nat, e = -((k : Nat) : Int) := ⟨(-e).toNat, by omega⟩
    subst hk
    rw [scaleNum_neg, scaleDen_of_nonpos _ _ (by omega)] at hlo
    rw [scaleNum_neg, scaleNum_neg, scaleDen_of_nonpos _ _ (by omega),
      scaleDen_of_nonpos _ _ (by omega)]
    have hP : 0 < 2 ^ k := Nat.two_pow_pos k
    generalize 2 ^ k = P at *
    -- the rounded significand lies in [n P, (n+1) P)
    have hdown : n * P ≤ roundNearestEven (A * c * P) (B * c) := by
      apply le_roundNearestEven _ _ _ hBc
      have h1 : n * B * (c * P) ≤ A * (c * P) := Nat.mul_le_mul_right _ hn1
      have h2 : A * (c * P) = A * c * P := by ring
      have h3 : n * B * (c * P) = n * P * (B * c) := by ring
      omega
    have hlo2 : 8388608 * B ≤ A * P := by
      have h1 : 8388608 * (B * c) = 8388608 * B * c := by ring
      have h2 : A * c * P = A * P * c := by ring
      rw [h1, h2] at hlo
      exact Nat.le_of_mul_le_mul_right hlo hc
    have hnB : (n + 1) * B = n * B + B := by ring
    rw [hnB] at hn2
    obtain ⟨r, hr⟩ : ∃ r : Nat, n * B + B = A + r := ⟨n * B + B - A, by omega⟩
    have hr1 : 0 < r := by omega
    have hAP : A * P ≤ 16777216 * P := Nat.mul_le_mul_right _ hA2
    have hAr : A * P + r * P = n * B * P + B * P := by
      have h := congrArg (fun t => t * P) hr
      simp only [] at h
      rw [Nat.add_mul, Nat.add_mul] at h
      exact h.symm
    have hkey : B < 2 * (r * P) := by
      by_contra hcon
      have h1 : 2 * (r * P) ≤ B := by omega
      have h2 : r * P ≤ 1 * P := by omega
      have h3 : r ≤ 1 := Nat.le_of_mul_le_mul_right h2 hP
      have h4 : r = 1 := by omega
      subst h4
      have h6 : B = 2 * P := by omega
      subst h6
      have h7 : 16777216 * P ≤ A * P := by omega
      have h8 : 16777216 ≤ A := Nat.le_of_mul_le_mul_right h7 hP
      have h9 : n * (2 * P) = 2 * (n * P) := by ring
      omega
    obtain ⟨K, hK⟩ : ∃ K : Nat, n * P + P = K + 1 := ⟨n * P + P - 1, by omega⟩
    have hup : roundNearestEven (A * c * P) (B * c) ≤ K := by
      apply roundNearestEven_le_of_lt _ _ _ hBc
      have h1 : 2 * (A * P) < (2 * K + 1) * B := by
        have h2 : (2 * K + 1) * B + B = 2 * ((K + 1) * B) := by ring
        have h3 : (K + 1) * B = n * B * P + B * P := by rw [← hK]; ring
        omega
      have h4 : 2 * (A * P) * c < (2 * K + 1) * B * c := Nat.mul_lt_mul_of_pos_right h1 hc
      have h5 : (2 * K + 1) * (B * c) = (2 * K + 1) * B * c := by ring
      have h6 : 2 * (A * c * P) = 2 * (A * P) * c := by ring
      omega
    generalize roundNearestEven (A * c * P) (B * c) = m at *
    have h2 : (n + 1) * P = n * P + P := by ring
    rw [Nat.one_mul]
    apply Nat.div_eq_of_lt_le
    · omega
    · rw [h2]; omega

/-! ## Conversions and the grid component -/

theorem intToFloat_natCast (n : Nat) (hn : 0 < n) :
    intToFloat (n : Int) = roundFloat false n 1 := by
  have h1 : ¬ ((n : Int) = 0) := by omega
  have h2 : ¬ ((n : Int) < 0) := by omega
  simp [intToFloat, h1, h2]

theorem intToFloat_neg_natCast (n : Nat) (hn : 0 < n) :
    intToFloat (-(n : Int)) = roundFloat true n 1 := by
  have h1 : ¬ (-(n : Int) = 0) := by omega
  have h2 : -(n : Int) < 0 := by omega
  have h3 : 0 < (n : Int) := by omega
  simp [intToFloat, h1, h3]

/-- The value of a converted positive integer: exact up to 2^24, and at least
2^24 above. -/
theorem roundFloat_integer (s : Bool) (n : Nat) (hn : 0 < n) :
    ∃ m e v, roundFloat s n 1 = .finite s m e ∧ 0 < m ∧
      scaleDen m e = v * scaleNum 1 e ∧ (n ≤ 16777216 → v = n) ∧
      (16777216 < n → 16777216 ≤ v) := by
  obtain ⟨hlo, hhi⟩ := ulpExp_spec n 1 hn (by omega)
  unfold roundFloat
  generalize ulpExp n 1 = e at *
  rcases Int.lt_or_le 0 e with he | he
  · obtain ⟨j, hj⟩ : ∃ j : Nat, e = ((j + 1 : Nat) : Int) := ⟨(e - 1).toNat, by omega⟩
    subst hj
    rw [scaleNum_of_nonneg _ _ (by omega), scaleDen_natCast] at hlo hhi
    have hD : 0 < 1 * 2 ^ (j + 1) := Nat.mul_pos (by omega) (Nat.two_pow_pos _)
    have hm := le_roundNearestEven n (1 * 2 ^ (j + 1)) 8388608 hD hlo
    refine ⟨_, _, scaleDen (roundNearestEven (scaleNum n ((j + 1 : Nat) : Int))
      (scaleDen 1 ((j + 1 : Nat) : Int))) ((j + 1 : Nat) : Int), rfl, ?_, ?_, ?_, ?_⟩
    · rw [scaleNum_of_nonneg _ _ (by omega), scaleDen_natCast]; omega
    · rw [scaleNum_of_nonneg 1 _ (by omega)]; omega
    · intro h
      rw [scaleNum_of_nonneg _ _ (by omega), scaleDen_natCast, scaleDen_natCast]
      rw [pow_succ] at hlo hD ⊢
      have hY : 0 < 2 ^ j := Nat.two_pow_pos j
      generalize 2 ^ j = Y at *
      have h2 : Y = 1 := by omega
      subst h2
      have h3 : n = 16777216 := by omega
      subst h3
      have h4 : (16777216 : Nat) = 8388608 * (1 * (1 * 2)) := by norm_num
      nth_rewrite 1 [h4]
      rw [roundNearestEven_exact _ _ (by omega)]
      norm_num
    · intro _
      rw [scaleNum_of_nonneg _ _ (by omega), scaleDen_natCast, scaleDen_natCast]
      rw [pow_succ] at hm ⊢
      have hY : 0 < 2 ^ j := Nat.two_pow_pos j
      generalize 2 ^ j = Y at *
      generalize roundNearestEven n (1 * (Y * 2)) = m at *
      have h5 : 8388608 * (Y * 2) ≤ m * (Y * 2) := Nat.mul_le_mul_right _ hm
      omega
  · obtain ⟨k, hk⟩ : ∃ k : Nat, e = -((k : Nat) : Int) := ⟨(-e).toNat, by omega⟩
    subst hk
    rw [scaleNum_neg, scaleDen_of_nonpos _ _ (by omega)] at hlo hhi
    have hP : 0 < 2 ^ k := Nat.two_pow_pos k
    have hle : n ≤ n * 2 ^ k := Nat.le_mul_of_pos_right _ hP
    have hm : roundNearestEven (n * 2 ^ k) 1 = n * 2 ^ k := by
      have h := roundNearestEven_exact 1 (n * 2 ^ k) (by omega)
      rw [Nat.mul_one] at h
      exact h
    refine ⟨_, _, n, rfl, ?_, ?_, ?_, ?_⟩
    · rw [scaleNum_neg, scaleDen_of_nonpos _ _ (by omega), hm]; omega
    · rw [scaleNum_neg, scaleNum_neg, scaleDen_of_nonpos _ _ (by omega),
        scaleDen_of_nonpos _ _ (by omega), hm, Nat.one_mul]
    · intro _; rfl
    · intro h; omega

/-- The quotient of two converted positive integers is the rounding of the
quotient of their values. -/
theorem fdiv_finite (s t : Bool) (ma mb u v : Nat) (ea eb : Int) (hma : 0 < ma) (hmb : 0 < mb)
    (hu : scaleDen ma ea = u * scaleNum 1 ea) (hv : scaleDen mb eb = v * scaleNum 1 eb) :
    fdiv (.finite s ma ea) (.finite t mb eb)
      = roundFloat (xor s t) (u * (scaleNum 1 ea * scaleNum 1 eb))
          (v * (scaleNum 1 ea * scaleNum 1 eb)) ∧ 0 < scaleNum 1 ea * scaleNum 1 eb := by
  have h1 : ma ≠ 0 := by omega
  have h2 : mb ≠ 0 := by omega
  have hc : 0 < scaleNum 1 ea * scaleNum 1 eb := by
    unfold scaleNum
    exact Nat.mul_pos (Nat.mul_pos (by omega) (Nat.two_pow_pos _))
      (Nat.mul_pos (by omega) (Nat.two_pow_pos _))
  have hnum : scaleNum (scaleDen ma ea) eb = u * (scaleNum 1 ea * scaleNum 1 eb) := by
    rw [hu]; unfold scaleNum; ring
  have hden : scaleNum (scaleDen mb eb) ea = v * (scaleNum 1 ea * scaleNum 1 eb) := by
    rw [hv]; unfold scaleNum; ring
  refine ⟨?_, hc⟩
  simp only [fdiv, h1, h2, if_false]
  rw [hnum, hden]

theorem floatToInt_natural (n : Nat) (h : n ≤ 2147483647) :
    floatToInt (.finite false n 0) = some (n : Int) := by
  have h1 : inInt (n : Int) := by
    unfold inInt INT_MIN INT_MAX; omega
  simp [floatToInt, scaleDen, scaleNum, h1]

/-- One component of the grid: for a dimension of at most 2^24 and a positive
block size, the single-precision computation is the exact ceiling quotient. -/
theorem gridComponent_eq (dim block_size : Nat) (hd : dim ≤ 16777216) (hb : 0 < block_size) :
    floatToInt (ceil (fdiv (intToFloat (dim : Int)) (intToFloat (block_size : Int))))
      = some (((dim + block_size - 1) / block_size : Nat) : Int) := by
  obtain ⟨mb, eb, v, hfb, hmb, hvb, hv1, hv2⟩ := roundFloat_integer false block_size hb
  rw [intToFloat_natCast block_size hb]
  rcases Nat.eq_zero_or_pos dim with h0 | hpos
  · subst h0
    have h1 : (0 + block_size - 1) / block_size = 0 := Nat.div_eq_of_lt (by omega)
    have h2 : mb ≠ 0 := by omega
    rw [hfb, h1]
    simp [intToFloat, fdiv, h2, ceil, floatToInt, scaleDen, scaleNum, inInt, INT_MIN, INT_MAX]
  · obtain ⟨ma, ea, u, hfa, hma, hva, hu1, -⟩ := roundFloat_integer false dim hpos
    rw [intToFloat_natCast dim hpos]
    have hu : u = dim := hu1 hd
    subst hu
    have hv0 : 0 < v := by
      rcases Nat.lt_or_ge 16777216 block_size with h | h
      · have := hv2 h; omega
      · have := hv1 h; omega
    have hq : (u + v - 1) / v = (u + block_size - 1) / block_size := by
      rcases Nat.lt_or_ge 16777216 block_size with h | h
      · have h3 := hv2 h
        rw [Nat.div_eq_of_lt_le (k := 1) (by omega) (by omega),
          Nat.div_eq_of_lt_le (k := 1) (by omega) (by omega)]
      · rw [hv1 h]
    have hle : (u + v - 1) / v ≤ 2147483647 := by
      obtain ⟨-, h3⟩ := ceilDiv_bounds u v hv0
      generalize (u + v - 1) / v = n at h3 ⊢
      rcases Nat.eq_zero_or_pos n with h4 | h4
      · omega
      · obtain ⟨n', hn'⟩ : ∃ n' : Nat, n = n' + 1 := ⟨n - 1, by omega⟩
        subst hn'
        have h5 : (n' + 1) * v = n' * v + v := by ring
        have h6 : n' ≤ n' * v := Nat.le_mul_of_pos_right _ hv0
        omega
    obtain ⟨hdiv, hc⟩ := fdiv_finite false false ma mb u v ea eb hma hmb hva hvb
    rw [hfa, hfb, hdiv]
    simp only [Bool.xor_false, roundFloat, ceil]
    rw [ceil_roundQuotient u v _ hpos hd hv0 hc, ← hq]
    exact floatToInt_natural _ hle

theorem intToUnsigned_natCast (n : Nat) (h : n < 4294967296) : intToUnsigned (n : Int) = n := by
  unfold intToUnsigned UINT_MOD
  omega

/-! ## Grid dimensions -/

theorem ceilDivSpec_natCast (dim block_size : Nat) (hb : 0 < block_size) :
    (ceilDivSpec (dim : Int) (block_size : Int)).toNat = (dim + block_size - 1) / block_size := by
  unfold ceilDivSpec
  have h : (dim : Int) + (block_size : Int) - 1 = ((dim + block_size - 1 : Nat) : Int) := by omega
  rw [h, ← Int.ofNat_ediv, Int.toNat_ofNat]

/-- The grid on the range where `(float)` is exact: both components are the
exact ceiling quotients. -/
theorem getGridBasedOnBlockSize_natCast (width height block_size : Nat)
    (hw : width ≤ 16777216) (hh : height ≤ 16777216) (hb : 0 < block_size) :
    getGridBasedOnBlockSize (width : Int) (height : Int) (block_size : Int)
      = some { x := (width + block_size - 1) / block_size,
               y := (height + block_size - 1) / block_size, z := 1 } := by
  have hx : (width + block_size - 1) / block_size < 4294967296 := by
    have h1 : (width + block_size - 1) / block_size ≤ width + block_size - 1 := Nat.div_le_self _ _
    rcases Nat.lt_or_ge ((width + block_size - 1) / block_size) 4294967296 with h | h
    · exact h
    · have h2 := (ceilDiv_bounds width block_size hb).2
      have h3 : 2 * block_size ≤ (width + block_size - 1) / block_size * block_size :=
        Nat.mul_le_mul_right _ (by omega)
      have h4 : 4294967296 * block_size ≤ (width + block_size - 1) / block_size * block_size :=
        Nat.mul_le_mul_right _ h
      omega
  have hy : (height + block_size - 1) / block_size < 4294967296 := by
    rcases Nat.lt_or_ge ((height + block_size - 1) / block_size) 4294967296 with h | h
    · exact h
    · have h2 := (ceilDiv_bounds height block_size hb).2
      have h4 : 4294967296 * block_size ≤ (height + block_size - 1) / block_size * block_size :=
        Nat.mul_le_mul_right _ h
      omega
  unfold getGridBasedOnBlockSize
  rw [gridComponent_eq width block_size hw hb, gridComponent_eq height block_size hh hb]
  simp only [intToUnsigned_natCast _ hx, intToUnsigned_natCast _ hy]

/-- C1 (amended): for 1 ≤ width, height ≤ 2^24 and every block_size ≥ 1 the
grid returned by `getGridBasedOnBlockSize` covers the domain and is minimal on
both axes. -/
theorem getGridBasedOnBlockSize_covers_minimal (width height block_size : Int)
    (hw1 : 1 ≤ width) (hw2 : width ≤ 16777216) (hh1 : 1 ≤ height) (hh2 : height ≤ 16777216)
    (hb1 : 1 ≤ block_size) (hb2 : block_size ≤ INT_MAX) :
    ∃ g : dim3, getGridBasedOnBlockSize width height block_size = some g ∧
      width ≤ (g.x : Int) * block_size ∧ ((g.x : Int) - 1) * block_size < width ∧
      height ≤ (g.y : Int) * block_size ∧ ((g.y : Int) - 1) * block_size < height := by
  obtain ⟨W, rfl⟩ : ∃ W : Nat, width = (W : Int) := ⟨width.toNat, by omega⟩
  obtain ⟨H, rfl⟩ : ∃ H : Nat, height = (H : Int) := ⟨height.toNat, by omega⟩
  obtain ⟨B, rfl⟩ : ∃ B : Nat, block_size = (B : Int) := ⟨block_size.toNat, by omega⟩
  have hB : 0 < B := by omega
  refine ⟨_, getGridBasedOnBlockSize_natCast W H B (by omega) (by omega) hB, ?_⟩
  obtain ⟨hx1, hx2⟩ := ceilDiv_bounds W B hB
  obtain ⟨hy1, hy2⟩ := ceilDiv_bounds H B hB
  simp only []
  generalize (W + B - 1) / B = gx at *
  generalize (H + B - 1) / B = gy at *
  have e1 : ((gx : Int) - 1) * (B : Int) = ((gx * B : Nat) : Int) - (B : Int) := by
    push_cast; ring
  have e2 : ((gy : Int) - 1) * (B : Int) = ((gy * B : Nat) : Int) - (B : Int) := by
    push_cast; ring
  have e3 : (gx : Int) * (B : Int) = ((gx * B : Nat) : Int) := by push_cast; ring
  have e4 : (gy : Int) * (B : Int) = ((gy * B : Nat) : Int) := by push_cast; ring
  rw [e1, e2, e3, e4]
  refine ⟨?_, ?_, ?_, ?_⟩ <;> omega

/-- Witness for C1: width 100, height 50, block size 16. -/
theorem getGridBasedOnBlockSize_covers_minimal_witness :
    ∃ g : dim3, getGridBasedOnBlockSize 100 50 16 = some g ∧
      (100 : Int) ≤ (g.x : Int) * 16 ∧ ((g.x : Int) - 1) * 16 < 100 ∧
      (50 : Int) ≤ (g.y : Int) * 16 ∧ ((g.y : Int) - 1) * 16 < 50 :=
  getGridBasedOnBlockSize_covers_minimal 100 50 16 (by decide) (by decide) (by decide)
    (by decide) (by decide) (by decide)

/-- C1 (counterexample): for width 2^24 + 1 and block size 16 the returned grid
has 1048576 groups along x, which cover only 16777216 columns. -/
theorem getGridBasedOnBlockSize_undercovers :
    getGridBasedOnBlockSize 16777217 50 16 = some { x := 1048576, y := 4, z := 1 } ∧
      ¬ ((16777217 : Int) ≤ ((1048576 : Nat) : Int) * 16) := by
  decide

/-- C2 (amended): for 0 ≤ width, height ≤ 2^24 and every block_size ≥ 1 the
single-precision computation of `getGridBasedOnBlockSize` agrees with the
integer formula `(dim + block_size - 1) / block_size` on both axes. -/
theorem getGridBasedOnBlockSize_eq_spec (width height block_size : Int)
    (hw1 : 0 ≤ width) (hw2 : width ≤ 16777216) (hh1 : 0 ≤ height) (hh2 : height ≤ 16777216)
    (hb1 : 1 ≤ block_size) (hb2 : block_size ≤ INT_MAX) :
    getGridBasedOnBlockSize width height block_size
      = some (getGridBasedOnBlockSizeSpec width height block_size) := by
  obtain ⟨W, rfl⟩ : ∃ W : Nat, width = (W : Int) := ⟨width.toNat, by omega⟩
  obtain ⟨H, rfl⟩ : ∃ H : Nat, height = (H : Int) := ⟨height.toNat, by omega⟩
  obtain ⟨B, rfl⟩ : ∃ B : Nat, block_size = (B : Int) := ⟨block_size.toNat, by omega⟩
  have hB : 0 < B := by omega
  rw [getGridBasedOnBlockSize_natCast W H B (by omega) (by omega) hB]
  unfold getGridBasedOnBlockSizeSpec
  rw [ceilDivSpec_natCast W B hB, ceilDivSpec_natCast H B hB]

/-- Witness for C2: width 1000, height 0, block size 3. -/
theorem getGridBasedOnBlockSize_eq_spec_witness :
    getGridBasedOnBlockSize 1000 0 3 = some (getGridBasedOnBlockSizeSpec 1000 0 3) :=
  getGridBasedOnBlockSize_eq_spec 1000 0 3 (by decide) (by decide) (by decide) (by decide)
    (by decide) (by decide)

/-- C2 (counterexample): at width 2^24 + 1, height 2^24 + 3 and block size 1
the code returns 2^24 and 2^24 + 4, the integer formula 2^24 + 1 and
2^24 + 3. -/
theorem getGridBasedOnBlockSize_ne_spec :
    getGridBasedOnBlockSize 16777217 16777219 1 = some { x := 16777216, y := 16777220, z := 1 } ∧
      getGridBasedOnBlockSizeSpec 16777217 16777219 1 = { x := 16777217, y := 16777219, z := 1 } := by
  decide

/-! ## Negative block sizes -/

theorem floatToInt_negative (n : Nat) (h : n ≤ 2147483648) :
    floatToInt (.finite true n 0) = some (-(n : Int)) := by
  have h1 : inInt (-(n : Int)) := by
    unfold inInt INT_MIN INT_MAX; omega
  simp [floatToInt, scaleDen, scaleNum, h1]

theorem ceil_rat_div (D B : Nat) (hB : 0 < B) :
    Int.ceil ((D : ℚ) / (B : ℚ)) = (((D + B - 1) / B : Nat) : Int) := by
  obtain ⟨h1, h2⟩ := ceilDiv_bounds D B hB
  have hBq : (0 : ℚ) < (B : ℚ) := by exact_mod_cast hB
  rw [Int.ceil_eq_iff]
  generalize (D + B - 1) / B = n at *
  constructor
  · rw [lt_div_iff₀ hBq]
    have h3 : ((n * B : Nat) : ℚ) < ((D + B : Nat) : ℚ) := by exact_mod_cast h2
    push_cast at h3 ⊢
    linarith
  · rw [div_le_iff₀ hBq]
    have h3 : ((D : Nat) : ℚ) ≤ ((n * B : Nat) : ℚ) := by exact_mod_cast h1
    push_cast at h3 ⊢
    linarith

theorem ceil_rat_div_neg (D B : Nat) :
    Int.ceil ((D : ℚ) / (-(B : ℚ))) = -(((D / B : Nat)) : Int) := by
  rw [div_neg, Int.ceil_neg, Rat.floor_natCast_div_natCast]
  norm_cast

/-- One component of the grid for a negative block size: for a dimension and a
block size of magnitude at most 2^24, the single-precision computation is the
exact ceiling of the quotient. -/
theorem gridComponent_neg (dim : Int) (B : Nat) (hd1 : -16777216 ≤ dim) (hd2 : dim ≤ 16777216)
    (hb1 : 0 < B) (hb2 : B ≤ 16777216) :
    floatToInt (ceil (fdiv (intToFloat dim) (intToFloat (-(B : Int)))))
      = some (Int.ceil ((dim : ℚ) / ((-(B : Int) : Int) : ℚ))) := by
  obtain ⟨mb, eb, v, hfb, hmb, hvb, hv1, -⟩ := roundFloat_integer true B hb1
  have hv : v = B := hv1 hb2
  subst hv
  rw [intToFloat_neg_natCast v hb1]
  rcases Int.lt_trichotomy dim 0 with hneg | hzero | hpos
  · -- both operands negative: a positive quotient
    obtain ⟨D, hD⟩ : ∃ D : Nat, dim = -(D : Int) := ⟨(-dim).toNat, by omega⟩
    subst hD
    have hDpos : 0 < D := by omega
    obtain ⟨ma, ea, u, hfa, hma, hva, hu1, -⟩ := roundFloat_integer true D hDpos
    have hu : u = D := hu1 (by omega)
    subst hu
    obtain ⟨hdiv, hc⟩ := fdiv_finite true true ma mb u v ea eb hma hmb hva hvb
    have hle : (u + v - 1) / v ≤ 2147483647 := by
      have h1 : (u + v - 1) / v ≤ u + v - 1 := Nat.div_le_self _ _
      omega
    rw [intToFloat_neg_natCast u hDpos, hfa, hfb, hdiv]
    simp only [Bool.xor_self, roundFloat, ceil]
    rw [ceil_roundQuotient u v _ hDpos (by omega) hb1 hc, floatToInt_natural _ hle]
    rw [Int.cast_neg, Int.cast_neg, Int.cast_natCast, Int.cast_natCast, neg_div_neg_eq,
      ceil_rat_div u v hb1]
  · subst hzero
    have h2 : mb ≠ 0 := by omega
    rw [hfb]
    simp [intToFloat, fdiv, h2, ceil, floatToInt, scaleDen, scaleNum, inInt, INT_MIN, INT_MAX]
  · -- operands of opposite signs: a negative quotient
    obtain ⟨D, hD⟩ : ∃ D : Nat, dim = (D : Int) := ⟨dim.toNat, by omega⟩
    subst hD
    have hDpos : 0 < D := by omega
    obtain ⟨ma, ea, u, hfa, hma, hva, hu1, -⟩ := roundFloat_integer false D hDpos
    have hu : u = D := hu1 (by omega)
    subst hu
    obtain ⟨hdiv, hc⟩ := fdiv_finite false true ma mb u v ea eb hma hmb hva hvb
    have hle : u / v ≤ 2147483648 := by
      have h1 : u / v ≤ u := Nat.div_le_self _ _
      omega
    rw [intToFloat_natCast u hDpos, hfa, hfb, hdiv]
    simp only [Bool.false_xor, roundFloat, ceil]
    rw [floor_roundQuotient u v _ hDpos (by omega) hb1 hc, floatToInt_negative _ hle]
    rw [Int.cast_neg, Int.cast_natCast, Int.cast_natCast, ceil_rat_div_neg u v]

/-- C6 (amended): `getGridBasedOnBlockSize` does not reject a negative
block size.  For -2^24 ≤ block_size < 0 and width, height of magnitude at most
2^24 it returns grid dimensions: each component is the ceiling of the exact
quotient `dim / block_size`, converted to `unsigned int` (reduced modulo
2^32). -/
theorem getGridBasedOnBlockSize_negative_block (width height block_size : Int)
    (hw1 : -16777216 ≤ width) (hw2 : width ≤ 16777216)
    (hh1 : -16777216 ≤ height) (hh2 : height ≤ 16777216)
    (hb1 : -16777216 ≤ block_size) (hb2 : block_size < 0) :
    getGridBasedOnBlockSize width height block_size
      = some { x := intToUnsigned (Int.ceil ((width : ℚ) / (block_size : ℚ))),
               y := intToUnsigned (Int.ceil ((height : ℚ) / (block_size : ℚ))), z := 1 } := by
  obtain ⟨B, hB⟩ : ∃ B : Nat, block_size = -(B : Int) := ⟨(-block_size).toNat, by omega⟩
  subst hB
  unfold getGridBasedOnBlockSize
  rw [gridComponent_neg width B hw1 hw2 (by omega) (by omega),
    gridComponent_neg height B hh1 hh2 (by omega) (by omega)]

/-- Witness for C6: block size -16 with width 100, height 50, and with the
negative width -100. -/
theorem getGridBasedOnBlockSize_negative_block_witness :
    getGridBasedOnBlockSize 100 50 (-16)
      = some { x := intToUnsigned (Int.ceil (((100 : Int) : ℚ) / ((-16 : Int) : ℚ))),
               y := intToUnsigned (Int.ceil (((50 : Int) : ℚ) / ((-16 : Int) : ℚ))), z := 1 } ∧
    getGridBasedOnBlockSize (-100) 50 (-16)
      = some { x := intToUnsigned (Int.ceil (((-100 : Int) : ℚ) / ((-16 : Int) : ℚ))),
               y := intToUnsigned (Int.ceil (((50 : Int) : ℚ) / ((-16 : Int) : ℚ))), z := 1 } :=
  ⟨getGridBasedOnBlockSize_negative_block 100 50 (-16) (by decide) (by decide) (by decide)
      (by decide) (by decide) (by decide),
    getGridBasedOnBlockSize_negative_block (-100) 50 (-16) (by decide) (by decide) (by decide)
      (by decide) (by decide) (by decide)⟩

/-- A negative width under a negative block size, evaluated: the quotient
6.25 is positive and its ceiling is 7. -/
theorem getGridBasedOnBlockSize_negative_width :
    getGridBasedOnBlockSize (-100) 50 (-16) = some { x := 7, y := 4294967293, z := 1 } := by
  decide

/-- C6 (counterexample): for block size -16 the call returns the grid
(4294967290, 4294967293, 1), the wrapped values of -6 and -3. -/
theorem getGridBasedOnBlockSize_negative_returns :
    (-16 : Int) ≤ 0 ∧
      getGridBasedOnBlockSize 100 50 (-16) = some { x := 4294967290, y := 4294967293, z := 1 } := by
  decide

/-! ## Tiling coordinates -/

theorem unsignedToInt_of_le (u : Nat) (h : u ≤ 2147483647) : unsignedToInt u = (u : Int) := by
  unfold unsignedToInt UINT_MOD
  have h1 : u % 4294967296 = u := Nat.mod_eq_of_lt (by omega)
  rw [h1, if_pos (by omega)]

theorem unsignedToInt_inj (u v : Nat) (hu : u < 4294967296) (hv : v < 4294967296)
    (h : unsignedToInt u = unsignedToInt v) : u = v := by
  unfold unsignedToInt UINT_MOD at h
  rw [Nat.mod_eq_of_lt hu, Nat.mod_eq_of_lt hv] at h
  split_ifs at h <;> omega

theorem coordinate_of_le (b i t : Nat) (h : b * i + t ≤ 2147483647) :
    unsignedToInt (uadd (umul b i) t) = ((b * i + t : Nat) : Int) := by
  have h0 : b * i ≤ 2147483647 := by omega
  have h1 : umul b i = b * i := by
    unfold umul UINT_MOD; exact Nat.mod_eq_of_lt (by omega)
  have h2 : uadd (b * i) t = b * i + t := by
    unfold uadd UINT_MOD; exact Nat.mod_eq_of_lt (by omega)
  rw [h1, h2, unsignedToInt_of_le _ h]

theorem coordinate_inj (b i t j s : Nat) (h1 : b * i + t < 4294967296)
    (h2 : b * j + s < 4294967296) (ht : t < b) (hs : s < b)
    (h : unsignedToInt (uadd (umul b i) t) = unsignedToInt (uadd (umul b j) s)) :
    i = j ∧ t = s := by
  have e1 : uadd (umul b i) t = b * i + t := by
    unfold uadd umul UINT_MOD
    rw [Nat.mod_eq_of_lt (show b * i < 4294967296 by omega), Nat.mod_eq_of_lt h1]
  have e2 : uadd (umul b j) s = b * j + s := by
    unfold uadd umul UINT_MOD
    rw [Nat.mod_eq_of_lt (show b * j < 4294967296 by omega), Nat.mod_eq_of_lt h2]
  rw [e1, e2] at h
  have h3 : b * i + t = b * j + s := unsignedToInt_inj _ _ h1 h2 h
  have hb : 0 < b := by omega
  have h4 : (b * i + t) / b = i := by
    rw [Nat.mul_add_div hb, Nat.div_eq_of_lt ht, Nat.add_zero]
  have h5 : (b * j + s) / b = j := by
    rw [Nat.mul_add_div hb, Nat.div_eq_of_lt hs, Nat.add_zero]
  have h6 : i = j := by rw [← h4, ← h5, h3]
  subst h6
  exact ⟨rfl, by omega⟩

/-- C4 (amended): when `blockDim * blockIdx + threadIdx` does not exceed
`INT_MAX` on either axis, the coordinates returned by `getGlobalDim` are
exactly these integers. -/
theorem getGlobalDim_eq (blockDim blockIdx threadIdx : dim3)
    (hx : blockDim.x * blockIdx.x + threadIdx.x ≤ 2147483647)
    (hy : blockDim.y * blockIdx.y + threadIdx.y ≤ 2147483647) :
    (getGlobalDim blockDim blockIdx threadIdx).x
        = ((blockDim.x * blockIdx.x + threadIdx.x : Nat) : Int) ∧
      (getGlobalDim blockDim blockIdx threadIdx).y
        = ((blockDim.y * blockIdx.y + threadIdx.y : Nat) : Int) := by
  unfold getGlobalDim
  exact ⟨coordinate_of_le _ _ _ hx, coordinate_of_le _ _ _ hy⟩

/-- Witness for C4: block size 16 x 16, block (3, 2), thread (5, 7). -/
theorem getGlobalDim_eq_witness :
    (getGlobalDim ⟨16, 16, 1⟩ ⟨3, 2, 0⟩ ⟨5, 7, 0⟩).x = ((16 * 3 + 5 : Nat) : Int) ∧
      (getGlobalDim ⟨16, 16, 1⟩ ⟨3, 2, 0⟩ ⟨5, 7, 0⟩).y = ((16 * 2 + 7 : Nat) : Int) :=
  getGlobalDim_eq ⟨16, 16, 1⟩ ⟨3, 2, 0⟩ ⟨5, 7, 0⟩ (by decide) (by decide)

/-- C4 (counterexample): with 1024 threads per block along x, thread 0 of block
2097152 has x = -2147483648, not 1024 * 2097152 + 0 = 2147483648. -/
theorem getGlobalDim_wraps :
    (⟨1024, 1, 1⟩ : dim3).wf ∧ (⟨2097152, 0, 0⟩ : dim3).wf ∧ (⟨0, 0, 0⟩ : dim3).wf ∧
      (0 : Nat) < 1024 ∧ (0 : Nat) < 1 ∧
      (getGlobalDim ⟨1024, 1, 1⟩ ⟨2097152, 0, 0⟩ ⟨0, 0, 0⟩).x = -2147483648 ∧
      (getGlobalDim ⟨1024, 1, 1⟩ ⟨2097152, 0, 0⟩ ⟨0, 0, 0⟩).x
        ≠ ((1024 * 2097152 + 0 : Nat) : Int) := by
  decide

/-- C5 (amended): for a fixed `blockDim`, `getGlobalDim` is injective on the
pairs (blockIdx, threadIdx) with `threadIdx < blockDim` per axis whose
`blockDim * blockIdx + threadIdx` stays below 2^32 on both axes. -/
theorem getGlobalDim_injective (blockDim blockIdx threadIdx blockIdx2 threadIdx2 : dim3)
    (htx : threadIdx.x < blockDim.x) (hty : threadIdx.y < blockDim.y)
    (htx2 : threadIdx2.x < blockDim.x) (hty2 : threadIdx2.y < blockDim.y)
    (hx : blockDim.x * blockIdx.x + threadIdx.x < 4294967296)
    (hy : blockDim.y * blockIdx.y + threadIdx.y < 4294967296)
    (hx2 : blockDim.x * blockIdx2.x + threadIdx2.x < 4294967296)
    (hy2 : blockDim.y * blockIdx2.y + threadIdx2.y < 4294967296)
    (h : getGlobalDim blockDim blockIdx threadIdx = getGlobalDim blockDim blockIdx2 threadIdx2) :
    blockIdx.x = blockIdx2.x ∧ blockIdx.y = blockIdx2.y ∧
      threadIdx.x = threadIdx2.x ∧ threadIdx.y = threadIdx2.y := by
  unfold getGlobalDim at h
  have h1 := congrArg GlobalDim.x h
  have h2 := congrArg GlobalDim.y h
  simp only [] at h1 h2
  obtain ⟨a1, a2⟩ := coordinate_inj _ _ _ _ _ hx hx2 htx htx2 h1
  obtain ⟨b1, b2⟩ := coordinate_inj _ _ _ _ _ hy hy2 hty hty2 h2
  exact ⟨a1, b1, a2, b2⟩

/-- Witness for C5: two equal pairs under block size 16 x 16. -/
theorem getGlobalDim_injective_witness :
    (⟨3, 2, 0⟩ : dim3).x = (⟨3, 2, 9⟩ : dim3).x ∧ (⟨3, 2, 0⟩ : dim3).y = (⟨3, 2, 9⟩ : dim3).y ∧
      (⟨5, 7, 0⟩ : dim3).x = (⟨5, 7, 4⟩ : dim3).x ∧ (⟨5, 7, 0⟩ : dim3).y = (⟨5, 7, 4⟩ : dim3).y :=
  getGlobalDim_injective ⟨16, 16, 1⟩ ⟨3, 2, 0⟩ ⟨5, 7, 0⟩ ⟨3, 2, 9⟩ ⟨5, 7, 4⟩ (by decide)
    (by decide) (by decide) (by decide) (by decide) (by decide) (by decide) (by decide)
    (by decide)

/-- C5 (counterexample): with `blockDim.x = 4`, block 1073741824 and block 0
(thread 0 in both) receive the same coordinate. -/
theorem getGlobalDim_collision :
    (0 : Nat) < 4 ∧ (0 : Nat) < 1 ∧
      getGlobalDim ⟨4, 1, 1⟩ ⟨1073741824, 0, 0⟩ ⟨0, 0, 0⟩
        = getGlobalDim ⟨4, 1, 1⟩ ⟨0, 0, 0⟩ ⟨0, 0, 0⟩ ∧
      (⟨1073741824, 0, 0⟩ : dim3).x ≠ (⟨0, 0, 0⟩ : dim3).x := by
  decide

/-- C9 (amended): when `gridDim * blockDim` is at most 2^31 on each axis, every
coordinate returned by `getGlobalDim` for `blockIdx < gridDim` and
`threadIdx < blockDim` is non-negative and below `gridDim * blockDim`. -/
theorem getGlobalDim_range (gridDim blockDim blockIdx threadIdx : dim3)
    (hix : blockIdx.x < gridDim.x) (hiy : blockIdx.y < gridDim.y)
    (htx : threadIdx.x < blockDim.x) (hty : threadIdx.y < blockDim.y)
    (hx : gridDim.x * blockDim.x ≤ 2147483648) (hy : gridDim.y * blockDim.y ≤ 2147483648) :
    0 ≤ (getGlobalDim blockDim blockIdx threadIdx).x ∧
      (getGlobalDim blockDim blockIdx threadIdx).x < ((gridDim.x * blockDim.x : Nat) : Int) ∧
      0 ≤ (getGlobalDim blockDim blockIdx threadIdx).y ∧
      (getGlobalDim blockDim blockIdx threadIdx).y < ((gridDim.y * blockDim.y : Nat) : Int) := by
  have key : ∀ g b i t : Nat, i < g → t < b → b * i + t < g * b := by
    intro g b i t hi ht
    have h1 : (i + 1) * b ≤ g * b := Nat.mul_le_mul_right _ hi
    have h2 : (i + 1) * b = b * i + b := by ring
    omega
  have kx := key _ _ _ _ hix htx
  have ky := key _ _ _ _ hiy hty
  unfold getGlobalDim
  simp only []
  rw [coordinate_of_le _ _ _ (by omega), coordinate_of_le _ _ _ (by omega)]
  refine ⟨?_, ?_, ?_, ?_⟩ <;> omega

/-- Witness for C9: a 4 x 3 grid of 16 x 16 blocks. -/
theorem getGlobalDim_range_witness :
    0 ≤ (getGlobalDim ⟨16, 16, 1⟩ ⟨3, 2, 0⟩ ⟨5, 7, 0⟩).x ∧
      (getGlobalDim ⟨16, 16, 1⟩ ⟨3, 2, 0⟩ ⟨5, 7, 0⟩).x < ((4 * 16 : Nat) : Int) ∧
      0 ≤ (getGlobalDim ⟨16, 16, 1⟩ ⟨3, 2, 0⟩ ⟨5, 7, 0⟩).y ∧
      (getGlobalDim ⟨16, 16, 1⟩ ⟨3, 2, 0⟩ ⟨5, 7, 0⟩).y < ((3 * 16 : Nat) : Int) :=
  getGlobalDim_range ⟨4, 3, 1⟩ ⟨16, 16, 1⟩ ⟨3, 2, 0⟩ ⟨5, 7, 0⟩ (by decide) (by decide)
    (by decide) (by decide) (by decide) (by decide)

/-- C9 (counterexample): in a grid of 2097153 blocks of 1024 threads along x,
thread 0 of the last block has a negative x. -/
theorem getGlobalDim_negative :
    (2097152 : Nat) < 2097153 ∧ (0 : Nat) < 1024 ∧ (0 : Nat) < 1 ∧
      (getGlobalDim ⟨1024, 1, 1⟩ ⟨2097152, 0, 0⟩ ⟨0, 0, 0⟩).x < 0 := by
  decide

/-! ## `_sleep` -/

/-- C10 (amended): for 0 ≤ n ≤ 2147 the microsecond count `_sleep` passes to
`usleep` is exactly `n * 1000000`. -/
theorem sleep_microseconds_eq (n : Int) (h0 : 0 ≤ n) (h1 : n ≤ 2147) :
    _sleep n = some (n.toNat * 1000000) := by
  unfold _sleep
  have h2 : inInt (n * 1000000) := by
    unfold inInt INT_MIN INT_MAX; omega
  rw [if_pos h2]
  unfold intToUnsigned UINT_MOD
  congr 1
  omega

/-- Witness for C10: three seconds. -/
theorem sleep_microseconds_eq_witness : _sleep 3 = some ((3 : Int).toNat * 1000000) :=
  sleep_microseconds_eq 3 (by decide) (by decide)

/-- C10 (counterexample): for n = 4295 the product 4295000000 does not fit in
32 bits, signed or unsigned: the `int` multiplication overflows, and the low 32
bits of the product are 32704.  The `int` product first overflows at
n = 2148. -/
theorem sleep_overflows :
    (0 : Int) ≤ 4295 ∧ (4295 : Int) ≤ INT_MAX ∧ ¬ inInt (4295 * 1000000) ∧
      intToUnsigned (4295 * 1000000) = 32704 ∧ _sleep 4295 ≠ some 4295000000 ∧
      ¬ inInt (2148 * 1000000) ∧ _sleep 2148 = none := by
  decide

/-! ## `drawMatrix` -/

theorem join_cons (a : String) (l : List String) : String.join (a :: l) = a ++ String.join l := by
  apply String.ext
  simp [String.data_join]

theorem index_natCast (i w j : Nat) (h : i * w + j ≤ 2147483647) :
    index (i : Int) (w : Int) (j : Int) = some ((i * w + j : Nat) : Int) := by
  unfold index
  have h1 : (i : Int) * (w : Int) = ((i * w : Nat) : Int) := by push_cast; ring
  have h2 : inInt ((i : Int) * (w : Int)) ∧ inInt ((i : Int) * (w : Int) + (j : Int)) := by
    rw [h1]; unfold inInt INT_MIN INT_MAX; omega
  rw [if_pos h2, h1]
  congr 1

theorem readFloat_natCast (m : List float) (n : Nat) (h : n < m.length) :
    readFloat m (n : Int) = some (m.get ⟨n, h⟩) := by
  unfold readFloat
  rw [if_pos (by omega)]
  simp [List.getElem?_eq_getElem h]

theorem drawRow_eq (m : List float) (w i : Nat) :
    ∀ (k j : Nat), i * w + j + k ≤ m.length → i * w + j + k ≤ 2147483648 →
      drawRow m (w : Int) (i : Int) k (j : Int)
        = some (String.join (((m.drop (i * w + j)).take k).map fun x => printf_f x ++ " ")) := by
  intro k
  induction k with
  | zero => intro j _ _; simp [drawRow, String.join]
  | succ k ih =>
    intro j h1 h2
    have hlt : i * w + j < m.length := by omega
    have hih := ih (j + 1) (by omega) (by omega)
    have hj : ((j + 1 : Nat) : Int) = (j : Int) + 1 := by push_cast; ring
    rw [hj] at hih
    unfold drawRow
    rw [index_natCast i w j (by omega)]
    simp only [Option.some_bind]
    rw [readFloat_natCast m _ hlt]
    simp only []
    rw [hih, List.drop_eq_getElem_cons hlt, List.take_succ_cons, List.map_cons, join_cons]
    simp [Nat.add_assoc]

theorem drawRows_eq (m : List float) (w : Nat) :
    ∀ (k i : Nat), (i + k) * w ≤ m.length → (i + k) * w ≤ 2147483648 →
      drawRows m (w : Int) k (i : Int)
        = some (String.join ((List.range' i k).map fun r =>
            String.join (((m.drop (r * w)).take w).map fun x => printf_f x ++ " ") ++ "\n")) := by
  intro k
  induction k with
  | zero => intro i _ _; simp [drawRows, String.join]
  | succ k ih =>
    intro i h1 h2
    have e1 : (i + (k + 1)) * w = i * w + w + k * w := by ring
    have e2 : (i + 1 + k) * w = i * w + w + k * w := by ring
    have hih := ih (i + 1) (by omega) (by omega)
    have hi : ((i + 1 : Nat) : Int) = (i : Int) + 1 := by push_cast; ring
    rw [hi] at hih
    have hrow := drawRow_eq m w i w 0 (by omega) (by omega)
    unfold drawRows
    rw [Int.toNat_ofNat]
    have h0 : ((0 : Nat) : Int) = 0 := rfl
    rw [h0] at hrow
    rw [hrow]
    simp only []
    rw [hih, List.range'_succ, List.map_cons, join_cons]
    simp

/-- C8 (amended): for a buffer of at least `width * height` floats, with
`width * height` at most 2^31, `drawMatrix` writes `height` lines in row
order; line `i` is, for each of `m[i*width] ... m[i*width + width - 1]` in
order, its `%f` rendering followed by one space, and then a newline. -/
theorem drawMatrix_eq (m : List float) (width height : Int)
    (hw : 0 ≤ width) (hh : 0 ≤ height)
    (hlen : width.toNat * height.toNat ≤ m.length)
    (hov : width.toNat * height.toNat ≤ 2147483648) :
    drawMatrix m width height
      = some (String.join ((List.range height.toNat).map fun i =>
          String.join (((m.drop (i * width.toNat)).take width.toNat).map
            fun x => printf_f x ++ " ") ++ "\n")) := by
  obtain ⟨W, rfl⟩ : ∃ W : Nat, width = (W : Int) := ⟨width.toNat, by omega⟩
  obtain ⟨H, rfl⟩ : ∃ H : Nat, height = (H : Int) := ⟨height.toNat, by omega⟩
  simp only [Int.toNat_ofNat] at hlen hov ⊢
  have h := drawRows_eq m W H 0 (by rw [Nat.zero_add, Nat.mul_comm]; exact hlen)
    (by rw [Nat.zero_add, Nat.mul_comm]; exact hov)
  unfold drawMatrix
  rw [Int.toNat_ofNat]
  have h0 : ((0 : Nat) : Int) = 0 := rfl
  rw [h0] at h
  rw [h, List.range_eq_range']

/-- Witness for C8: the 2 x 2 matrix 1, 2, 3, 4. -/
theorem drawMatrix_eq_witness :
    drawMatrix [intToFloat 1, intToFloat 2, intToFloat 3, intToFloat 4] 2 2
      = some (String.join ((List.range (2 : Int).toNat).map fun i =>
          String.join ((([intToFloat 1, intToFloat 2, intToFloat 3, intToFloat 4].drop
            (i * (2 : Int).toNat)).take (2 : Int).toNat).map
            fun x => printf_f x ++ " ") ++ "\n")) :=
  drawMatrix_eq [intToFloat 1, intToFloat 2, intToFloat 3, intToFloat 4] 2 2 (by decide)
    (by decide) (by decide) (by decide)

/-- C8 (counterexample): for the 2 x 2 matrix 1, 2, 3, 4 every line ends with a
space before its newline, and the values are written with six decimals; the
output is neither the space-separated layout nor the text "1 2\n3 4\n". -/
theorem drawMatrix_trailing_space :
    drawMatrix [intToFloat 1, intToFloat 2, intToFloat 3, intToFloat 4] 2 2
        = some "1.000000 2.000000 \n3.000000 4.000000 \n" ∧
      drawMatrixSpec [intToFloat 1, intToFloat 2, intToFloat 3, intToFloat 4] 2 2
        = "1.000000 2.000000\n3.000000 4.000000\n" ∧
      drawMatrix [intToFloat 1, intToFloat 2, intToFloat 3, intToFloat 4] 2 2
        ≠ some (drawMatrixSpec [intToFloat 1, intToFloat 2, intToFloat 3, intToFloat 4] 2 2) ∧
      drawMatrix [intToFloat 1, intToFloat 2, intToFloat 3, intToFloat 4] 2 2
        ≠ some "1 2\n3 4\n" := by
  decide

/-! ## Transfers -/

theorem cudaMemcpy_calls (M : Machine) (dst src : Ptr) (count : Nat) (kind : cudaMemcpyKind) :
    ∃ status, (cudaMemcpy M dst src count kind).calls
      = M.calls ++ [Call.cudaMemcpy dst src count kind status] := by
  unfold cudaMemcpy
  simp only []
  split
  · split
    · split
      · exact ⟨_, rfl⟩
      · exact ⟨_, rfl⟩
    · exact ⟨_, rfl⟩
  · split
    · split
      · exact ⟨_, rfl⟩
      · exact ⟨_, rfl⟩
    · exact ⟨_, rfl⟩
  · exact ⟨_, rfl⟩

/-- The round trip with a supplied destination, evaluated: the buffer
1, 2, 3, 4 copied to offset 1 of a block of six unwritten cells, with exactly
16 bytes of device memory and no host memory left to allocate. -/
theorem roundTrip_supplied_destination :
    (roundTrip (freshMachine [countingCells 4, List.replicate 6 none] 0 16) (Ptr.host 0 0) 4
        (Ptr.host 1 1)).1 = Ptr.host 1 1 ∧
    (roundTrip (freshMachine [countingCells 4, List.replicate 6 none] 0 16) (Ptr.host 0 0) 4
        (Ptr.host 1 1)).2.host
      = [countingCells 4, [none] ++ countingCells 4 ++ [none]] ∧
    (roundTrip (freshMachine [countingCells 4, List.replicate 6 none] 0 16) (Ptr.host 0 0) 4
        (Ptr.host 1 1)).2.calls
      = [Call.cudaMalloc 16 cudaError.cudaSuccess,
          Call.cudaMemcpy (Ptr.device 0 0) (Ptr.host 0 0) 16
            cudaMemcpyKind.cudaMemcpyHostToDevice cudaError.cudaSuccess,
          Call.cudaMemcpy (Ptr.host 1 1) (Ptr.device 0 0) 16
            cudaMemcpyKind.cudaMemcpyDeviceToHost cudaError.cudaSuccess] := by
  decide

/-- C7 (amended): neither transfer looks at the result of its allocation.
`_copyHostDevice` always calls `cudaMalloc` and then `cudaMemcpy` with the
pointer it returns as destination, which is the unset `src_d` when the
allocation failed; `_copyDeviceHost` with `dst = NULL` always calls `malloc`
and then `cudaMemcpy` with the result of `malloc` as target, `NULL` when the
allocation failed. -/
theorem transfers_always_copy (M : Machine) (src : Ptr) (src_size : Int) :
    (∃ status, (_copyHostDevice M src src_size).2.calls = M.calls ++
      [Call.cudaMalloc (byteCount src_size)
          (if byteCount src_size ≤ M.deviceFree then cudaError.cudaSuccess
            else cudaError.cudaErrorMemoryAllocation),
        Call.cudaMemcpy (_copyHostDevice M src src_size).1 src (byteCount src_size)
          cudaMemcpyKind.cudaMemcpyHostToDevice status]) ∧
    (_copyHostDevice M src src_size).1
      = (if byteCount src_size ≤ M.deviceFree then Ptr.device M.device.length 0
          else Ptr.indeterminate) ∧
    (∃ status, (_copyDeviceHost M src src_size Ptr.null).2.calls = M.calls ++
      [Call.malloc (byteCount src_size) (_copyDeviceHost M src src_size Ptr.null).1,
        Call.cudaMemcpy (_copyDeviceHost M src src_size Ptr.null).1 src (byteCount src_size)
          cudaMemcpyKind.cudaMemcpyDeviceToHost status]) ∧
    (_copyDeviceHost M src src_size Ptr.null).1
      = (if byteCount src_size ≤ M.hostFree then Ptr.host M.host.length 0 else Ptr.null) := by
  refine ⟨?_, ?_, ?_, ?_⟩
  · unfold _copyHostDevice cudaMalloc
    by_cases h : byteCount src_size ≤ M.deviceFree
    · simp only [if_pos h]
      obtain ⟨st, hst⟩ := cudaMemcpy_calls
        { M with device := M.device ++ [List.replicate (byteCount src_size / 4) none],
                 deviceFree := M.deviceFree - byteCount src_size,
                 calls := M.calls ++ [Call.cudaMalloc (byteCount src_size) cudaError.cudaSuccess] }
        (Ptr.device M.device.length 0) src (byteCount src_size)
        cudaMemcpyKind.cudaMemcpyHostToDevice
      exact ⟨st, by rw [hst]; simp⟩
    · simp only [if_neg h]
      obtain ⟨st, hst⟩ := cudaMemcpy_calls
        { M with calls := M.calls ++ [Call.cudaMalloc (byteCount src_size)
          cudaError.cudaErrorMemoryAllocation] }
        Ptr.indeterminate src (byteCount src_size) cudaMemcpyKind.cudaMemcpyHostToDevice
      exact ⟨st, by rw [hst]; simp⟩
  · unfold _copyHostDevice cudaMalloc
    by_cases h : byteCount src_size ≤ M.deviceFree
    · simp only [if_pos h]
    · simp only [if_neg h]
  · unfold _copyDeviceHost malloc
    by_cases h : byteCount src_size ≤ M.hostFree
    · simp only [if_pos h, if_true]
      obtain ⟨st, hst⟩ := cudaMemcpy_calls
        { M with host := M.host ++ [List.replicate (byteCount src_size / 4) none],
                 hostFree := M.hostFree - byteCount src_size,
                 calls := M.calls ++ [Call.malloc (byteCount src_size) (Ptr.host M.host.length 0)] }
        (Ptr.host M.host.length 0) src (byteCount src_size)
        cudaMemcpyKind.cudaMemcpyDeviceToHost
      exact ⟨st, by rw [hst]; simp⟩
    · simp only [if_neg h, if_true]
      obtain ⟨st, hst⟩ := cudaMemcpy_calls
        { M with calls := M.calls ++ [Call.malloc (byteCount src_size) Ptr.null] }
        Ptr.null src (byteCount src_size) cudaMemcpyKind.cudaMemcpyDeviceToHost
      exact ⟨st, by rw [hst]; simp⟩
  · unfold _copyDeviceHost malloc
    by_cases h : byteCount src_size ≤ M.hostFree
    · simp only [if_pos h, if_true]
    · simp only [if_neg h, if_true]

/-- C7 (counterexample): with 3 bytes of device memory left, `_copyHostDevice`
on four floats gets `cudaErrorMemoryAllocation` from `cudaMalloc`, issues the
copy all the same and returns the unset pointer; with 3 bytes of host memory
left, `_copyDeviceHost` on one float with `dst = NULL` gets `NULL` from
`malloc` and issues the copy with `NULL` as target. -/
theorem transfers_copy_after_failed_allocation :
    _copyHostDevice (freshMachine [countingCells 4] 1024 3) (Ptr.host 0 0) 4
      = (Ptr.indeterminate,
          { freshMachine [countingCells 4] 1024 3 with
            calls := [Call.cudaMalloc 16 cudaError.cudaErrorMemoryAllocation,
              Call.cudaMemcpy Ptr.indeterminate (Ptr.host 0 0) 16
                cudaMemcpyKind.cudaMemcpyHostToDevice cudaError.cudaErrorInvalidValue] }) ∧
    _copyDeviceHost { freshMachine [] 3 1024 with device := [countingCells 1] }
        (Ptr.device 0 0) 1 Ptr.null
      = (Ptr.null,
          { freshMachine [] 3 1024 with
            device := [countingCells 1],
            calls := [Call.malloc 4 Ptr.null,
              Call.cudaMemcpy Ptr.null (Ptr.device 0 0) 4
                cudaMemcpyKind.cudaMemcpyDeviceToHost cudaError.cudaErrorInvalidValue] }) := by
  decide

end Utils
